import Mathlib

/-!
Verification of the real-time bridge anomaly detection pipeline.

The pipeline consists of three processes sharing one PostgreSQL table
(`bridge_dataset`, primary key `id SERIAL`):

* `seed_historical_data.py` seeds the first 70 percent of the source CSV;
* `bridge_realtime_engine.py` (the Feed Producer) replays the remaining
  30 percent one row at a time, stamping each row with the wall-clock
  insertion time and stripping any scoring outcome;
* `bridge_ml_engine.py` (the Scoring Loop) repeatedly fetches rows whose
  `is_anomaly` column is NULL, scores them with a fitted
  imputer/scaler/IsolationForest pipeline, and writes the
  `(is_anomaly, anomaly_score)` outcome back.

The embedding below models the table as a list of records ordered by
strictly increasing `id` (the store assigns ids from a SERIAL sequence,
so they are unique and ascending), numeric values as rationals, and the
fitted scikit-learn artifacts as opaque row functions.  Loops are given
explicit fuel; exception and shutdown behaviour is driven by boolean
schedules indexed by cycle number.
-/

namespace Bridge

/-- A telemetry record of the `bridge_dataset` table.  `features` holds the
six FEATURE_COLUMNS used for scoring; `extra` stands for the remaining
columns, which the scoring engine never touches.  `outcome` is the
`(is_anomaly, anomaly_score)` pair; `none` models both columns NULL
("pending").  The scoring UPDATE always sets both columns together and the
producer inserts both as NULL, so a single option is faithful to every
reachable row state. -/
structure Record where
  id : Nat
  features : List ℚ
  extra : List ℚ
  outcome : Option (Bool × ℚ)
  deriving Repr, DecidableEq

/-- The fitted artifacts returned by `train_model`: imputer, scaler and
IsolationForest.  scikit-learn transforms and predicts row-wise, so each
artifact is modelled as a function on one feature row.  `predict` returns
1 or -1 (-1 meaning outlier); `decision_function` returns the raw
anomaly score, lower meaning more anomalous. -/
structure Model where
  imputerTransform : List ℚ → List ℚ
  scalerTransform : List ℚ → List ℚ
  predict : List ℚ → Int
  decision_function : List ℚ → ℚ

/-- BATCH_SIZE constant of bridge_ml_engine.py: rows scored per cycle. -/
def BATCH_SIZE : Nat := 100

/-- SCORING_INTERVAL constant of bridge_ml_engine.py: seconds slept between
scoring cycles. -/
def SCORING_INTERVAL : ℚ := 2

/-- The pending fetch at the top of `score_batch`:
SELECT id, features FROM bridge_dataset WHERE is_anomaly IS NULL
ORDER BY id LIMIT limit.  The store list is kept in ascending-id order,
so ORDER BY id is the identity and the SELECT is filter-then-take. -/
def fetchPending (s : List Record) (limit : Nat) : List Record :=
  (s.filter fun r => r.outcome.isNone).take limit

/-- The pure scoring core of `score_batch`: given the raw feature rows of a
batch, apply the fitted imputer, then the fitted scaler, then the
estimator, returning one `(is_anomaly, anomaly_score)` pair per row.
`is_anomaly` is `pred == -1`; the score is the raw decision value. -/
def score_batch_core (m : Model) (rows : List (List ℚ)) : List (Bool × ℚ) :=
  rows.map fun raw =>
    let x := m.scalerTransform (m.imputerTransform raw)
    (decide (m.predict x = -1), m.decision_function x)

/-- One element of the `updates` list built by `score_batch`:
`(is_anomaly, anomaly_score, id)`, the parameters of one UPDATE. -/
abbrev Update := Bool × ℚ × Nat

/-- The `updates` list of `score_batch`: scoring results zipped with the ids
of the fetched batch, positionally aligned. -/
def batchUpdates (m : Model) (s : List Record) : List Update :=
  let rows := fetchPending s BATCH_SIZE
  ((score_batch_core m (rows.map Record.features)).zip (rows.map Record.id)).map
    fun p => (p.1.1, p.1.2, p.2)

/-- Effect of one UPDATE on one row: if the row's id matches the update's
id parameter, its outcome columns are set; otherwise it is untouched. -/
def updStep (r : Record) (u : Update) : Record :=
  if r.id = u.2.2 then { r with outcome := some (u.1, u.2.1) } else r

/-- One UPDATE bridge_dataset SET is_anomaly = %s, anomaly_score = %s
WHERE id = %s: every row whose id matches gets the outcome written. -/
def applyUpdate (u : Update) (s : List Record) : List Record :=
  s.map fun r => updStep r u

/-- The `executemany` over the updates list, followed by one commit. -/
def applyOutcomes (updates : List Update) (s : List Record) : List Record :=
  updates.foldl (fun acc u => applyUpdate u acc) s

/-- Cumulative effect of a whole UPDATE batch on a single row (proof
helper: `applyOutcomes` is shown below to be the pointwise map of this). -/
def updFun (updates : List Update) (r : Record) : Record :=
  updates.foldl updStep r

/-- The `score_batch` function of bridge_ml_engine.py acting on the store:
fetch up to BATCH_SIZE pending rows in id order; if none, return 0; else
score them and write all outcomes back, returning the new store and the
number of rows scored. -/
def score_batch (m : Model) (s : List Record) : List Record × Nat :=
  let rows := fetchPending s BATCH_SIZE
  if rows.isEmpty then (s, 0)
  else
    let updates := batchUpdates m s
    (applyOutcomes updates s, updates.length)

/-- The store after k scoring cycles (ignoring rows inserted in between;
cycle c applies `score_batch` once). -/
def scoreCycles (m : Model) : Nat → List Record → List Record
  | 0, s => s
  | k + 1, s => scoreCycles m k (score_batch m s).1

/-- Store well-formedness: ids strictly ascending (id is SERIAL PRIMARY
KEY, assigned in insertion order). -/
def SortedById (s : List Record) : Prop :=
  s.Pairwise fun a b => a.id < b.id

/-- State of the scoring engine process inside its main loop: whether the
store connection is currently healthy, and the (abstract) store contents. -/
structure EngineState where
  connOpen : Bool
  store : List Record
  deriving Repr, DecidableEq

/-- One pass through the body of the `while _running` loop of the scoring
engine's `main`.  `raises` says whether this cycle's try-block (fetch,
score, update or status query) raises; `reconnectOk` whether the
`get_connection()` retry inside the except-block succeeds.  On an
exception the store is left as it was, the old connection is closed and a
fresh one attempted; otherwise `score_batch` runs to completion.  Either
way the body ends with `time.sleep(SCORING_INTERVAL)`, returned as the
slept duration. -/
def engineCycle (m : Model) (raises reconnectOk : Bool) (st : EngineState) :
    EngineState × ℚ :=
  if raises then ({ st with connOpen := reconnectOk }, SCORING_INTERVAL)
  else ({ st with store := (score_batch m st.store).1 }, SCORING_INTERVAL)

/-- The `while _running` loop of the scoring engine's `main`, with cycles
numbered from `c`.  `running cyc` is the value of the `_running` flag read
at the top of cycle `cyc` (the signal handler only flips this flag; it
raises nothing, so a mid-cycle signal is seen at the next top-of-loop
test).  `fuel` bounds the number of cycles modelled; `none` means the
loop was still running when the fuel ran out.  On exit it returns the
final state and the list of per-cycle sleep durations. -/
def engineLoop (m : Model) (running raises reconnectOk : Nat → Bool) :
    Nat → Nat → EngineState → Option (EngineState × List ℚ)
  | 0, _, _ => none
  | fuel + 1, c, st =>
    if running c then
      match engineLoop m running raises reconnectOk fuel (c + 1)
          (engineCycle m (raises c) (reconnectOk c) st).1 with
      | none => none
      | some (stf, ds) => some (stf, (engineCycle m (raises c) (reconnectOk c) st).2 :: ds)
    else some (st, [])

/-! The Feed Producer, bridge_realtime_engine.py. -/

/-- Bit length of a natural number, with explicit fuel so that it reduces
structurally.  200 bits of fuel cover every dataset size that can occur. -/
def bitLenAux : Nat → Nat → Nat
  | 0, _ => 0
  | fuel + 1, n => if n = 0 then 0 else bitLenAux fuel (n / 2) + 1

/-- Bit length: the least L with n < 2^L. -/
def bitLen (n : Nat) : Nat := bitLenAux 200 n

/-- Round a natural number to 53 significant bits, ties to even: the
significand rounding step of IEEE-754 double-precision arithmetic. -/
def roundMantissa53 (P : Nat) : Nat :=
  let L := bitLen P
  if L ≤ 53 then P
  else
    let shift := L - 53
    let m0 := P / 2 ^ shift
    let r := P % 2 ^ shift
    let half := 2 ^ (shift - 1)
    let m := if half < r then m0 + 1
      else if r < half then m0
      else if m0 % 2 = 0 then m0 else m0 + 1
    m * 2 ^ shift

/-- Numerator of the double-precision value of the literal 0.70 (the
TRAIN_RATIO constant): the nearest double to 0.7 is
3152519739159347 / 2^52, slightly below 7/10. -/
def trainRatioNum : Nat := 3152519739159347

/-- Modelling `split_idx = int(total * 0.70)` exactly as Python evaluates
it: `total` (exactly representable as a double for every realistic size)
is multiplied by the double 0.70 = trainRatioNum/2^52, the exact product
trainRatioNum*total/2^52 is rounded to the nearest double (53-bit
significand, ties to even), and `int` truncates the (nonnegative) result.
Both truncation and the final scaling by 2^52 are the single Nat
division below. -/
def floatSplitIdx (total : Nat) : Nat :=
  roundMantissa53 (trainRatioNum * total) / 2 ^ 52

/-- Split index computed by seed_historical_data.py:
`split_idx = int(total * TRAIN_RATIO)` with TRAIN_RATIO = 0.70. -/
def seedSplitIdx (total : Nat) : Nat := floatSplitIdx total

/-- Split index computed by `load_realtime_data` of
bridge_realtime_engine.py: `split_idx = int(total * train_ratio)`, the
same expression with the same constant 0.70. -/
def replaySplitIdx (total : Nat) : Nat := floatSplitIdx total

/-- The training prefix taken by seed_historical_data.py:
`df.iloc[:split_idx]`. -/
def train_df (df : List (List ℚ)) : List (List ℚ) :=
  df.take (seedSplitIdx df.length)

/-- The replay suffix loaded by `load_realtime_data`:
`df.iloc[split_idx:]` of the same CSV. -/
def load_realtime_data (df : List (List ℚ)) : List (List ℚ) :=
  df.drop (replaySplitIdx df.length)

/-- Computation of `total_to_send` in the producer's `main`:
`min(max_count, total_available)` when `--count` is positive, otherwise
all remaining rows.  `max_count` is a Python int and may be negative. -/
def total_to_send (max_count : Int) (total_available : Nat) : Nat :=
  if 0 < max_count then min max_count.toNat total_available else total_available

/-- The replay `for idx in range(total_to_send)` loop, started at index
`idx` with `rem` indices left.  `running i` is the `_running` flag read by
the `if not _running: break` test at the top of iteration `i`; `ok i`
tells whether `insert_row` at index `i` succeeds (on failure the exception
is caught, the error printed, the transaction rolled back, and the loop
moves on).  Returns `(attempted, succeeded)`: how many insertions were
attempted and how many of them succeeded.  The `count` printed at the end
of `main` is the `succeeded` component. -/
def replayLoop (running ok : Nat → Bool) : Nat → Nat → Nat × Nat
  | 0, _ => (0, 0)
  | rem + 1, idx =>
    if running idx then
      let p := replayLoop running ok rem (idx + 1)
      (p.1 + 1, p.2 + if ok idx then 1 else 0)
    else (0, 0)

/-- The producer's `main` after loading: plan `total_to_send` rows, run the
replay loop, and report.  Returns `(attempted, succeeded, planned)`; the
final status line prints `succeeded / planned`
("Rows inserted: count / total_to_send"). -/
def replayMain (running ok : Nat → Bool) (max_count : Int) (total_available : Nat) :
    Nat × Nat × Nat :=
  let t := total_to_send max_count total_available
  let p := replayLoop running ok t 0
  (p.1, p.2, t)

/-- A Python value as it appears in a pandas row handed to `insert_row`.
`nan` is a float NaN (`pd.isna` true), `pynone` is None (also `pd.isna`
true); `npFloat`/`npInt` are numpy scalars carrying the given numeric
value, `pyFloat`/`pyInt` native Python numbers, `str` a string and
`timeVal` a timestamp. -/
inductive PyVal where
  | pynone
  | nan
  | npFloat (q : ℚ)
  | npInt (i : Int)
  | pyFloat (q : ℚ)
  | pyInt (i : Int)
  | str (s : String)
  | timeVal (t : Nat)
  deriving Repr, DecidableEq

/-- The per-value conversion in `insert_row`: `pd.isna` values become None
(NULL), numpy scalars are cast to native Python values via `.item()`, and
everything else is passed through. -/
def convertVal : PyVal → PyVal
  | .pynone => .pynone
  | .nan => .pynone
  | .npFloat q => .pyFloat q
  | .npInt i => .pyInt i
  | v => v

/-- The `insert_row` function of bridge_realtime_engine.py, as the record
(association list column-name/value, in row order) it actually INSERTs.
Every column of the source row is copied through `convertVal`, except that
the `timestamp` column is replaced by the current wall-clock time `now`,
and the `is_anomaly` and `anomaly_score` keys are popped from the dict
before the INSERT (the CSV's own `anomaly_detection_score` column is
deliberately kept). -/
def insert_row (now : Nat) (row : List (String × PyVal)) : List (String × PyVal) :=
  (row.map fun cv =>
      if cv.1 = "timestamp" then (cv.1, PyVal.timeVal now) else (cv.1, convertVal cv.2)).filter
    fun cv => cv.1 ≠ "is_anomaly" ∧ cv.1 ≠ "anomaly_score"

/-- State of the scoring engine after `k` completed cycles starting from
cycle number `c`: each cycle applies `engineCycle` with that cycle's
exception and reconnection schedule entries. -/
def runCycles (m : Model) (raises reconnectOk : Nat → Bool) :
    Nat → Nat → EngineState → EngineState
  | _, 0, st => st
  | c, k + 1, st =>
    runCycles m raises reconnectOk (c + 1) k
      (engineCycle m (raises c) (reconnectOk c) st).1

/-- Concrete model used by witnesses: a feature value of at least 10 is an
outlier and the raw score is the value itself. -/
def modelW : Model :=
  ⟨id, id, fun x => if 10 ≤ x.headI then -1 else 1, fun x => x.headI⟩

/-- Concrete three-record store used by witnesses: record 1 already
scored, records 2 and 3 pending, ids ascending. -/
def storeW : List Record :=
  [⟨1, [3], [], some (true, 5)⟩, ⟨2, [20], [], none⟩, ⟨3, [4], [], none⟩]

/-- The witness store after one scoring cycle under the witness model:
record 1 untouched, records 2 and 3 scored. -/
def scoredW : List Record :=
  [⟨1, [3], [], some (true, 5)⟩, ⟨2, [20], [], some (true, 20)⟩,
   ⟨3, [4], [], some (false, 4)⟩]

/-! Helper lemmas for the Feed Producer loop. -/

theorem replayLoop_fst_le (running ok : Nat → Bool) :
    ∀ rem idx, (replayLoop running ok rem idx).1 ≤ rem := by
  intro rem
  induction rem with
  | zero => intro idx; simp [replayLoop]
  | succ n ih =>
    intro idx
    by_cases h : running idx = true
    · simp only [replayLoop, h, if_true]
      exact Nat.succ_le_succ (ih (idx + 1))
    · simp only [replayLoop, Bool.not_eq_true] at h
      simp [replayLoop, h]

theorem replayLoop_no_shutdown (running ok : Nat → Bool)
    (h : ∀ i, running i = true) :
    ∀ rem idx, replayLoop running ok rem idx =
      (rem, ((List.range' idx rem).filter ok).length) := by
  intro rem
  induction rem with
  | zero => intro idx; simp [replayLoop]
  | succ n ih =>
    intro idx
    simp only [replayLoop, h idx, if_true, ih (idx + 1), List.range'_succ,
      List.filter_cons]
    by_cases hok : ok idx = true
    · simp [hok, Nat.add_comm]
    · simp only [Bool.not_eq_true] at hok
      simp [hok]

/-- Claim C3, as stated, is false: the replay loop of the producer's `main`
iterates `for idx in range(total_to_send)` and a failed insertion consumes
an iteration, so the loop can stop even though fewer than maxCount
insertions succeeded and the sub-sequence is not exhausted and no
shutdown was requested.  Concretely: maxCount = 2 over a 3-row
sub-sequence with the first insertion failing stops with 2 attempts and
only 1 success, while 1 ≠ 2 (maxCount not reached), 2 ≠ 3 (sub-sequence
not exhausted) and the `_running` flag is constantly true (no shutdown). -/
theorem replay_stops_early_counterexample :
    replayMain (fun _ => true) (fun i => decide (0 < i)) 2 3 = (2, 1, 2) ∧
    (1 : Nat) ≠ 2 ∧ (2 : Nat) ≠ 3 :=
  ⟨by decide, by decide, by decide⟩

/-- Claim C3 (amended): for every maxCount > 0 and source sub-sequence,
replay stops after min(maxCount, |sub-sequence|) insertion attempts
(successful or not) — or earlier on a cooperative shutdown signal — and
never attempts more than that; when no shutdown occurs its final report
pairs the count succeeded with the planned total
min(maxCount, |sub-sequence|), which then equals the count attempted. -/
theorem replay_termination (running ok : Nat → Bool) (mc : Int) (total : Nat) :
    (replayMain running ok mc total).1 ≤ total_to_send mc total ∧
    ((∀ i, running i = true) →
      replayMain running ok mc total =
        (total_to_send mc total,
         ((List.range (total_to_send mc total)).filter ok).length,
         total_to_send mc total)) := by
  constructor
  · exact replayLoop_fst_le running ok (total_to_send mc total) 0
  · intro h
    simp [replayMain, replayLoop_no_shutdown running ok h, List.range_eq_range']

/-- Witness for the amended C3: maxCount 5 over 3 rows with every
insertion succeeding and no shutdown attempts and inserts all 3 rows and
reports 3 of 3. -/
theorem replay_termination_witness :
    replayMain (fun _ => true) (fun _ => true) 5 3 = (3, 3, 3) := by
  have h := (replay_termination (fun _ => true) (fun _ => true) 5 3).2 fun _ => rfl
  rw [h]
  decide

/-- Claim C8: a failed insertion is skipped and replay continues — the
number of insertion attempts made by the replay loop does not depend on
which insertions fail, and absent a shutdown every one of the `rem`
remaining records is attempted exactly once (no abort, no retry). -/
theorem replay_failure_skipped (running ok okAlt : Nat → Bool) (rem idx : Nat) :
    (replayLoop running ok rem idx).1 = (replayLoop running okAlt rem idx).1 ∧
    ((∀ i, running i = true) → (replayLoop running ok rem idx).1 = rem) := by
  constructor
  · induction rem generalizing idx with
    | zero => simp [replayLoop]
    | succ n ih =>
      by_cases h : running idx = true
      · simp only [replayLoop, h, if_true]
        exact congrArg (· + 1) (ih (idx + 1))
      · simp only [Bool.not_eq_true] at h
        simp [replayLoop, h]
  · intro h
    rw [replayLoop_no_shutdown running ok h rem idx]

/-- Witness for C8: with the first of three insertions failing versus all
three succeeding, the attempt count is the same, and it is 3. -/
theorem replay_failure_skipped_witness :
    (replayLoop (fun _ => true) (fun i => decide (0 < i)) 3 0).1 =
      (replayLoop (fun _ => true) (fun _ => true) 3 0).1 ∧
    (replayLoop (fun _ => true) (fun i => decide (0 < i)) 3 0).1 = 3 := by
  have h := replay_failure_skipped (fun _ => true) (fun i => decide (0 < i))
    (fun _ => true) 3 0
  exact ⟨h.1, h.2 fun _ => rfl⟩

/-- Claim C9: a negative `--count` takes the `else` branch of
`if max_count > 0`, exactly like count 0: the planned total is the whole
remaining sub-sequence and the run is identical to an unbounded one. -/
theorem negative_count_unbounded (running ok : Nat → Bool) (mc : Int)
    (total : Nat) (h : mc < 0) :
    total_to_send mc total = total ∧
    replayMain running ok mc total = replayMain running ok 0 total := by
  have h1 : total_to_send mc total = total := by
    simp [total_to_send, not_lt_of_gt h, Int.not_lt.2 (Int.le_of_lt h)]
  refine ⟨h1, ?_⟩
  have h0 : total_to_send 0 total = total := by simp [total_to_send]
  simp only [replayMain]
  rw [h1, h0]

/-- Witness for C9: `--count -5` over 2 rows replays both rows, exactly
like `--count 0`. -/
theorem negative_count_unbounded_witness :
    total_to_send (-5) 2 = 2 ∧
    replayMain (fun _ => true) (fun _ => true) (-5) 2 =
      replayMain (fun _ => true) (fun _ => true) 0 2 :=
  negative_count_unbounded (fun _ => true) (fun _ => true) (-5) 2 (by decide)

/-- Claim C4, as stated, is false: the split index is computed as
`int(total * 0.7)` in double-precision arithmetic, and the double 0.70 is
slightly below 7/10, so for some N the result is floor(0.7N) - 1.  At
N = 330 both processes compute int(330 * 0.7) = int(230.99999999999997)
= 230, while floor(0.7 * 330) = 231; the replay set then has 100 rows,
not N - floor(0.7N) = 99, and starts at index 230, not 231. -/
theorem split_floor_counterexample :
    replaySplitIdx 330 = 230 ∧
    7 * 330 / 10 = 231 ∧
    (load_realtime_data (List.replicate 330 ([] : List ℚ))).length = 100 ∧
    330 - 7 * 330 / 10 = 99 := by
  refine ⟨by decide, by decide, ?_, by decide⟩
  have h : replaySplitIdx 330 = 230 := by decide
  simp only [load_realtime_data, List.length_drop, List.length_replicate, h]

/-- Claim C4 (amended): both processes compute the same split index
k = int(N * 0.7) (evaluated in double arithmetic; k = floor(0.7N) for
most N but one less for some, such as N = 330); the Feed Producer's
replay set is exactly the sub-sequence of rows with indices [k, N): it
has exactly N - k rows, its i-th row is row k + i of the source, and it
shares no position with the training prefix [0, k), the concatenation of
the two being the whole source. -/
theorem split_consistency (df : List (List ℚ)) :
    seedSplitIdx df.length = replaySplitIdx df.length ∧
    train_df df ++ load_realtime_data df = df ∧
    (train_df df).length = min (seedSplitIdx df.length) df.length ∧
    (load_realtime_data df).length = df.length - replaySplitIdx df.length ∧
    ∀ i (h : i < (load_realtime_data df).length),
      ∃ h2 : replaySplitIdx df.length + i < df.length,
        (load_realtime_data df).get ⟨i, h⟩ = df.get ⟨replaySplitIdx df.length + i, h2⟩ := by
  refine ⟨rfl, ?_, ?_, ?_, ?_⟩
  · exact List.take_append_drop _ df
  · simp [train_df]
  · simp [load_realtime_data]
  · intro i h
    have hlen : (load_realtime_data df).length = df.length - replaySplitIdx df.length := by
      simp [load_realtime_data]
    rw [hlen] at h
    have h2 : replaySplitIdx df.length + i < df.length := by omega
    refine ⟨h2, ?_⟩
    simp only [load_realtime_data, List.get_eq_getElem, List.getElem_drop]

/-- Witness for the amended C4: on the 3-row source [[1],[2],[3]] both
processes compute split index int(3 * 0.7) = 2, the concatenation of the
two parts is the source, the replay set has 3 - 2 rows and its row 0 is
source row 2 + 0. -/
theorem split_consistency_witness :
    seedSplitIdx 3 = replaySplitIdx 3 ∧
    train_df [[(1 : ℚ)], [2], [3]] ++ load_realtime_data [[(1 : ℚ)], [2], [3]] =
      [[(1 : ℚ)], [2], [3]] ∧
    (load_realtime_data [[(1 : ℚ)], [2], [3]]).length = 3 - replaySplitIdx 3 ∧
    (load_realtime_data [[(1 : ℚ)], [2], [3]]).get ⟨0, by decide⟩ =
      [[(1 : ℚ)], [2], [3]].get ⟨replaySplitIdx 3 + 0, by decide⟩ := by
  have h := split_consistency [[(1 : ℚ)], [2], [3]]
  obtain ⟨h2, heq⟩ := h.2.2.2.2 0 (by decide)
  exact ⟨h.1, h.2.1, h.2.2.2.1, heq⟩

/-- Claim C2: `score_batch_core` returns exactly one (label, score) pair
per input row, positionally aligned; the pair at position i is computed
from row i by applying the fitted imputer, then the fitted scaler, then
the estimator: the label is true exactly when the prediction is the
outlier value -1, and the score is the raw decision-function value with
no thresholding. -/
theorem score_batch_core_aligned (m : Model) (rows : List (List ℚ)) :
    (score_batch_core m rows).length = rows.length ∧
    ∀ i (h : i < rows.length),
      (score_batch_core m rows)[i]? =
        some
          (decide (m.predict (m.scalerTransform (m.imputerTransform (rows.get ⟨i, h⟩))) = -1),
           m.decision_function (m.scalerTransform (m.imputerTransform (rows.get ⟨i, h⟩)))) := by
  constructor
  · simp [score_batch_core]
  · intro i h
    rw [score_batch_core, List.getElem?_map, List.getElem?_eq_getElem h]
    rfl

/-- Witness for C2: a two-row batch under a concrete model in which a
feature value of at least 10 is predicted to be an outlier and the score
is the value itself: row 0 scores (false, 3), row 1 scores (true, 20),
in input order. -/
theorem score_batch_core_aligned_witness :
    (score_batch_core
        ⟨id, id, fun x => if 10 ≤ x.headI then -1 else 1, fun x => x.headI⟩
        [[3], [20]]).length = 2 ∧
    (score_batch_core
        ⟨id, id, fun x => if 10 ≤ x.headI then -1 else 1, fun x => x.headI⟩
        [[3], [20]])[1]? = some (true, 20) := by
  have h := score_batch_core_aligned
    ⟨id, id, fun x => if 10 ≤ x.headI then -1 else 1, fun x => x.headI⟩ [[3], [20]]
  refine ⟨h.1, ?_⟩
  rw [h.2 1 (by decide)]
  norm_num

/-- Claim C7: on a store whose ids are strictly ascending, the pending
fetch `SELECT ... WHERE is_anomaly IS NULL ORDER BY id LIMIT BATCH_SIZE`
returns at most BATCH_SIZE = 100 records (however many are pending),
every returned record has absent outcome, and the returned records are in
strictly ascending id order. -/
theorem fetchPending_spec (s : List Record) (hs : SortedById s) :
    BATCH_SIZE = 100 ∧
    (fetchPending s BATCH_SIZE).length ≤ BATCH_SIZE ∧
    (∀ r ∈ fetchPending s BATCH_SIZE, r.outcome = none) ∧
    SortedById (fetchPending s BATCH_SIZE) := by
  refine ⟨rfl, ?_, ?_, ?_⟩
  · exact List.length_take_le _ _
  · intro r hr
    have hf := List.mem_of_mem_take hr
    have := List.of_mem_filter hf
    simpa [Option.isNone_iff_eq_none] using this
  · have hsub : List.Sublist (fetchPending s BATCH_SIZE) s :=
      List.Sublist.trans (List.take_sublist _ _) (List.filter_sublist _)
    exact hs.sublist hsub

/-- Witness for C7: on the concrete three-record store the fetch returns
at most 100 records, all pending, in ascending id order. -/
theorem fetchPending_spec_witness :
    BATCH_SIZE = 100 ∧
    (fetchPending storeW BATCH_SIZE).length ≤ BATCH_SIZE ∧
    (⟨2, [20], [], none⟩ : Record).outcome = none ∧
    SortedById (fetchPending storeW BATCH_SIZE) := by
  have h := fetchPending_spec storeW (by unfold SortedById storeW; decide)
  exact ⟨h.1, h.2.1, h.2.2.1 ⟨2, [20], [], none⟩ (by decide), h.2.2.2⟩

/-! Helper lemmas for the scoring UPDATE batch. -/

theorem updStep_id (r : Record) (u : Update) : (updStep r u).id = r.id := by
  unfold updStep
  by_cases h : r.id = u.2.2 <;> simp [h]

theorem updStep_isSome (r : Record) (u : Update)
    (h : r.outcome.isSome = true) : (updStep r u).outcome.isSome = true := by
  unfold updStep
  by_cases hid : r.id = u.2.2 <;> simp [hid, h]

theorem updFun_nil (r : Record) : updFun [] r = r := rfl

theorem updFun_cons (u : Update) (us : List Update) (r : Record) :
    updFun (u :: us) r = updFun us (updStep r u) := rfl

theorem updFun_id (updates : List Update) (r : Record) :
    (updFun updates r).id = r.id := by
  induction updates generalizing r with
  | nil => rfl
  | cons u us ih => rw [updFun_cons, ih, updStep_id]

theorem updFun_isSome_of_isSome (updates : List Update) (r : Record)
    (h : r.outcome.isSome = true) : (updFun updates r).outcome.isSome = true := by
  induction updates generalizing r with
  | nil => exact h
  | cons u us ih => rw [updFun_cons]; exact ih _ (updStep_isSome r u h)

theorem updFun_isSome (updates : List Update) (r : Record)
    (h : ∃ u ∈ updates, u.2.2 = r.id) : (updFun updates r).outcome.isSome = true := by
  induction updates generalizing r with
  | nil => simp at h
  | cons u us ih =>
    rw [updFun_cons]
    obtain ⟨u', hu', hid⟩ := h
    rcases List.mem_cons.1 hu' with rfl | hmem
    · apply updFun_isSome_of_isSome
      unfold updStep
      rw [if_pos hid.symm]
      rfl
    · exact ih _ ⟨u', hmem, by rw [updStep_id, hid]⟩

theorem updFun_eq_self (updates : List Update) (r : Record)
    (h : ∀ u ∈ updates, u.2.2 ≠ r.id) : updFun updates r = r := by
  induction updates with
  | nil => rfl
  | cons u us ih =>
    rw [updFun_cons]
    have hstep : updStep r u = r := by
      unfold updStep
      rw [if_neg fun hc => h u (List.mem_cons_self u us) hc.symm]
    rw [hstep]
    exact ih fun u' hu' => h u' (List.mem_cons_of_mem u hu')

theorem applyOutcomes_eq_map (updates : List Update) (s : List Record) :
    applyOutcomes updates s = s.map (updFun updates) := by
  induction updates generalizing s with
  | nil => exact (List.map_id s).symm
  | cons u us ih =>
    have h1 : applyOutcomes (u :: us) s = applyOutcomes us (applyUpdate u s) := rfl
    rw [h1, ih, applyUpdate, List.map_map]
    rfl

theorem mem_fetchPending (s : List Record) (limit : Nat) (r : Record)
    (hr : r ∈ fetchPending s limit) : r ∈ s ∧ r.outcome = none := by
  have hf := List.mem_of_mem_take hr
  refine ⟨List.mem_of_mem_filter hf, ?_⟩
  have := List.of_mem_filter hf
  simpa [Option.isNone_iff_eq_none] using this

theorem batchUpdates_target_pending (m : Model) (s : List Record) :
    ∀ u ∈ batchUpdates m s, ∃ p, p ∈ s ∧ p.id = u.2.2 ∧ p.outcome = none := by
  intro u hu
  unfold batchUpdates at hu
  obtain ⟨pr, hmem, rfl⟩ := List.mem_map.1 hu
  have hid : pr.2 ∈ (fetchPending s BATCH_SIZE).map Record.id :=
    (List.of_mem_zip hmem).2
  obtain ⟨p, hp, hpid⟩ := List.mem_map.1 hid
  obtain ⟨hps, hpnone⟩ := mem_fetchPending s BATCH_SIZE p hp
  exact ⟨p, hps, hpid, hpnone⟩

theorem batchUpdates_ids (m : Model) (s : List Record) :
    (batchUpdates m s).map (fun u => u.2.2) =
      (fetchPending s BATCH_SIZE).map Record.id := by
  unfold batchUpdates
  rw [List.map_map]
  have h : ((fun u : Update => u.2.2) ∘ fun p : (Bool × ℚ) × Nat => (p.1.1, p.1.2, p.2)) =
      Prod.snd := rfl
  rw [h]
  apply List.map_snd_zip
  simp [score_batch_core]

theorem score_batch_eq (m : Model) (s : List Record) :
    (score_batch m s).1 =
      if (fetchPending s BATCH_SIZE).isEmpty then s
      else applyOutcomes (batchUpdates m s) s := by
  unfold score_batch
  by_cases h : (fetchPending s BATCH_SIZE).isEmpty <;> simp [h]

theorem score_batch_preserves_scored (m : Model) (s : List Record) (r : Record)
    (hnd : (s.map Record.id).Nodup) (hr : r ∈ s)
    (hsome : r.outcome.isSome = true) : r ∈ (score_batch m s).1 := by
  rw [score_batch_eq]
  by_cases he : (fetchPending s BATCH_SIZE).isEmpty
  · simpa [he] using hr
  · rw [if_neg he, applyOutcomes_eq_map]
    have hfix : updFun (batchUpdates m s) r = r := by
      apply updFun_eq_self
      intro u hu heq
      obtain ⟨p, hps, hpid, hpnone⟩ := batchUpdates_target_pending m s u hu
      have hpr : p = r :=
        List.inj_on_of_nodup_map hnd hps hr (by rw [hpid, heq])
      rw [hpr] at hpnone
      rw [hpnone] at hsome
      simp at hsome
    exact hfix ▸ List.mem_map_of_mem (updFun (batchUpdates m s)) hr

theorem score_batch_map_id (m : Model) (s : List Record) :
    ((score_batch m s).1).map Record.id = s.map Record.id := by
  rw [score_batch_eq]
  by_cases he : (fetchPending s BATCH_SIZE).isEmpty
  · rw [if_pos he]
  · rw [if_neg he, applyOutcomes_eq_map, List.map_map]
    congr 1
    funext r
    exact updFun_id _ r

theorem scoreCycles_preserves_scored (m : Model) (s : List Record) (r : Record)
    (hnd : (s.map Record.id).Nodup) (hr : r ∈ s)
    (hsome : r.outcome.isSome = true) : ∀ k, r ∈ scoreCycles m k s := by
  intro k
  induction k generalizing s with
  | zero => exact hr
  | succ n ih =>
    have h1 : r ∈ (score_batch m s).1 :=
      score_batch_preserves_scored m s r hnd hr hsome
    have h2 : ((score_batch m s).1.map Record.id).Nodup := by
      rw [score_batch_map_id]; exact hnd
    exact ih _ h2 h1

/-- Claim C1: every UPDATE issued by a scoring cycle targets the id of a
record whose outcome is currently absent (the batch comes from the
pending-only fetch), and consequently — since the store keys records by
unique ids — a record whose outcome is already set is carried unchanged
(same id, same outcome values) through every later scoring cycle. -/
theorem outcome_write_once (m : Model) (s : List Record) (r : Record)
    (hnd : (s.map Record.id).Nodup) (hr : r ∈ s)
    (hsome : r.outcome.isSome = true) :
    (∀ u ∈ batchUpdates m s, ∃ p, p ∈ s ∧ p.id = u.2.2 ∧ p.outcome = none) ∧
    ∀ k, r ∈ scoreCycles m k s :=
  ⟨batchUpdates_target_pending m s,
   scoreCycles_preserves_scored m s r hnd hr hsome⟩

/-- Witness for C1: in the concrete store, record 1 with outcome
(true, 5) is still present, bit for bit, after two scoring cycles, and
the single batch of updates targets only the pending ids 2 and 3. -/
theorem outcome_write_once_witness :
    (⟨1, [3], [], some (true, 5)⟩ : Record) ∈ scoreCycles modelW 2 storeW := by
  have h := outcome_write_once modelW storeW ⟨1, [3], [], some (true, 5)⟩
    (by unfold storeW; decide) (by unfold storeW; decide) (by decide)
  exact h.2 2

/-! Helper lemmas for the scoring engine's main loop. -/

theorem engineCycle_snd (m : Model) (ra ro : Bool) (st : EngineState) :
    (engineCycle m ra ro st).2 = SCORING_INTERVAL := by
  unfold engineCycle
  cases ra <;> rfl

theorem engineLoop_zero (m : Model) (running raises reconnectOk : Nat → Bool)
    (c : Nat) (st : EngineState) :
    engineLoop m running raises reconnectOk 0 c st = none := rfl

theorem engineLoop_succ_not_running (m : Model)
    (running raises reconnectOk : Nat → Bool) (fuel c : Nat) (st : EngineState)
    (h : running c = false) :
    engineLoop m running raises reconnectOk (fuel + 1) c st = some (st, []) := by
  simp [engineLoop, h]

theorem engineLoop_succ_running (m : Model)
    (running raises reconnectOk : Nat → Bool) (fuel c : Nat) (st : EngineState)
    (h : running c = true) :
    engineLoop m running raises reconnectOk (fuel + 1) c st =
      match engineLoop m running raises reconnectOk fuel (c + 1)
          (engineCycle m (raises c) (reconnectOk c) st).1 with
      | none => none
      | some (stf, ds) =>
        some (stf, (engineCycle m (raises c) (reconnectOk c) st).2 :: ds) := by
  simp [engineLoop, h]

theorem engineLoop_sleeps (m : Model) (running raises reconnectOk : Nat → Bool) :
    ∀ fuel c st stf ds,
      engineLoop m running raises reconnectOk fuel c st = some (stf, ds) →
        ∀ d ∈ ds, d = SCORING_INTERVAL := by
  intro fuel
  induction fuel with
  | zero =>
    intro c st stf ds h
    rw [engineLoop_zero] at h
    exact absurd h (by simp)
  | succ n ih =>
    intro c st stf ds h
    by_cases hr : running c = true
    · rw [engineLoop_succ_running m running raises reconnectOk n c st hr] at h
      cases hin : engineLoop m running raises reconnectOk n (c + 1)
          (engineCycle m (raises c) (reconnectOk c) st).1 with
      | none => rw [hin] at h; simp at h
      | some p =>
        obtain ⟨stf', ds'⟩ := p
        rw [hin] at h
        simp only [Option.some.injEq, Prod.mk.injEq] at h
        obtain ⟨-, hds⟩ := h
        subst hds
        intro d hd
        rcases List.mem_cons.1 hd with rfl | hmem
        · exact engineCycle_snd m (raises c) (reconnectOk c) st
        · exact ih (c + 1) _ stf' ds' hin d hmem
    · rw [engineLoop_succ_not_running m running raises reconnectOk n c st
        (by revert hr; simp)] at h
      simp only [Option.some.injEq, Prod.mk.injEq] at h
      obtain ⟨-, hds⟩ := h
      subst hds
      intro d hd
      simp at hd

theorem engineLoop_exit (m : Model) (running raises reconnectOk : Nat → Bool) :
    ∀ fuel c st stf ds,
      engineLoop m running raises reconnectOk fuel c st = some (stf, ds) →
        (∀ j, j < ds.length → running (c + j) = true) ∧
        running (c + ds.length) = false ∧
        stf = runCycles m raises reconnectOk c ds.length st := by
  intro fuel
  induction fuel with
  | zero =>
    intro c st stf ds h
    rw [engineLoop_zero] at h
    exact absurd h (by simp)
  | succ n ih =>
    intro c st stf ds h
    by_cases hr : running c = true
    · rw [engineLoop_succ_running m running raises reconnectOk n c st hr] at h
      cases hin : engineLoop m running raises reconnectOk n (c + 1)
          (engineCycle m (raises c) (reconnectOk c) st).1 with
      | none => rw [hin] at h; simp at h
      | some p =>
        obtain ⟨stf', ds'⟩ := p
        rw [hin] at h
        simp only [Option.some.injEq, Prod.mk.injEq] at h
        obtain ⟨hstf, hds⟩ := h
        subst hstf
        subst hds
        obtain ⟨h1, h2, h3⟩ := ih (c + 1) _ _ ds' hin
        refine ⟨?_, ?_, ?_⟩
        · intro j hj
          cases j with
          | zero => simpa using hr
          | succ j' =>
            have hj' : j' < ds'.length := by
              simpa using Nat.lt_of_succ_lt_succ (by simpa using hj)
            have hcj : c + (j' + 1) = (c + 1) + j' := by omega
            rw [hcj]
            exact h1 j' hj'
        · have hc : c + ((engineCycle m (raises c) (reconnectOk c) st).2 :: ds').length =
              (c + 1) + ds'.length := by
            simp
            omega
          rw [hc]
          exact h2
        · simpa [runCycles] using h3
    · rw [engineLoop_succ_not_running m running raises reconnectOk n c st
        (by revert hr; simp)] at h
      simp only [Option.some.injEq, Prod.mk.injEq] at h
      obtain ⟨hstf, hds⟩ := h
      subst hstf
      subst hds
      refine ⟨fun j hj => absurd hj (by simp), ?_, rfl⟩
      simpa using (by revert hr; simp : running c = false)

theorem engineLoop_cycles_indep (m m2 : Model)
    (running raises raises2 reconnectOk reconnectOk2 : Nat → Bool) :
    ∀ fuel c st st2,
      (engineLoop m running raises reconnectOk fuel c st).map (fun p => p.2.length) =
        (engineLoop m2 running raises2 reconnectOk2 fuel c st2).map
          fun p => p.2.length := by
  intro fuel
  induction fuel with
  | zero => intro c st st2; rfl
  | succ n ih =>
    intro c st st2
    by_cases hr : running c = true
    · rw [engineLoop_succ_running m running raises reconnectOk n c st hr,
        engineLoop_succ_running m2 running raises2 reconnectOk2 n c st2 hr]
      have hIH := ih (c + 1) (engineCycle m (raises c) (reconnectOk c) st).1
        (engineCycle m2 (raises2 c) (reconnectOk2 c) st2).1
      cases hin1 : engineLoop m running raises reconnectOk n (c + 1)
          (engineCycle m (raises c) (reconnectOk c) st).1 with
      | none =>
        cases hin2 : engineLoop m2 running raises2 reconnectOk2 n (c + 1)
            (engineCycle m2 (raises2 c) (reconnectOk2 c) st2).1 with
        | none => rfl
        | some p2 => rw [hin1, hin2] at hIH; simp at hIH
      | some p1 =>
        cases hin2 : engineLoop m2 running raises2 reconnectOk2 n (c + 1)
            (engineCycle m2 (raises2 c) (reconnectOk2 c) st2).1 with
        | none => rw [hin1, hin2] at hIH; simp at hIH
        | some p2 =>
          rw [hin1, hin2] at hIH
          obtain ⟨stf1, ds1⟩ := p1
          obtain ⟨stf2, ds2⟩ := p2
          simp only [Option.map_some, Option.some.injEq] at hIH ⊢
          simpa using hIH
    · rw [engineLoop_succ_not_running m running raises reconnectOk n c st
          (by revert hr; simp),
        engineLoop_succ_not_running m2 running raises2 reconnectOk2 n c st2
          (by revert hr; simp)]
      rfl

theorem score_batch_completes (m : Model) (s : List Record) :
    ∀ r ∈ fetchPending s BATCH_SIZE,
      ∃ r', r' ∈ (score_batch m s).1 ∧ r'.id = r.id ∧ r'.outcome.isSome = true := by
  intro r hr
  have hne : (fetchPending s BATCH_SIZE).isEmpty = false := by
    cases hfp : fetchPending s BATCH_SIZE with
    | nil => rw [hfp] at hr; simp at hr
    | cons a t => rfl
  rw [score_batch_eq]
  rw [hne]
  simp only [Bool.false_eq_true, if_false]
  rw [applyOutcomes_eq_map]
  refine ⟨updFun (batchUpdates m s) r,
    List.mem_map_of_mem _ (mem_fetchPending s BATCH_SIZE r hr).1,
    updFun_id _ r, ?_⟩
  apply updFun_isSome
  have hid : r.id ∈ (batchUpdates m s).map fun u => u.2.2 := by
    rw [batchUpdates_ids]
    exact List.mem_map_of_mem Record.id hr
  obtain ⟨u, hu, hueq⟩ := List.mem_map.1 hid
  exact ⟨u, hu, hueq⟩

/-- Claim C6: the `_running` flag is read only by the top-of-loop test —
whenever the loop exits normally it does so exactly at the first cycle
whose flag reads false, with every earlier cycle's body run to completion
(the final state is the full-cycle iteration `runCycles`); and within a
cycle `score_batch` persists an outcome for every record of the fetched
batch, so an in-flight batch is never partially scored and abandoned. -/
theorem shutdown_observed_at_cycle_top (m : Model)
    (running raises reconnectOk : Nat → Bool) :
    (∀ fuel c st stf ds,
      engineLoop m running raises reconnectOk fuel c st = some (stf, ds) →
        (∀ j, j < ds.length → running (c + j) = true) ∧
        running (c + ds.length) = false ∧
        stf = runCycles m raises reconnectOk c ds.length st) ∧
    (∀ s : List Record, ∀ r ∈ fetchPending s BATCH_SIZE,
      ∃ r', r' ∈ (score_batch m s).1 ∧ r'.id = r.id ∧ r'.outcome.isSome = true) :=
  ⟨engineLoop_exit m running raises reconnectOk, score_batch_completes m⟩

/-- Witness for C6: with shutdown requested from cycle 1 on, the loop runs
cycle 0 to completion and exits at the top of cycle 1: the final store is
the fully scored one, and each of the pending records — record 2 shown
here — has received an outcome. -/
theorem shutdown_observed_at_cycle_top_witness :
    (fun c : Nat => decide (c < 1)) (0 + 0) = true ∧
    (fun c : Nat => decide (c < 1)) (0 + 1) = false ∧
    EngineState.mk true scoredW =
      runCycles modelW (fun _ => false) (fun _ => true) 0 1 ⟨true, storeW⟩ ∧
    ∃ r', r' ∈ (score_batch modelW storeW).1 ∧ r'.id = 2 ∧
      r'.outcome.isSome = true := by
  have h := shutdown_observed_at_cycle_top modelW (fun c => decide (c < 1))
    (fun _ => false) (fun _ => true)
  have h1 := h.1 2 0 ⟨true, storeW⟩ ⟨true, scoredW⟩ [SCORING_INTERVAL] (by decide)
  have h2 := h.2 storeW ⟨2, [20], [], none⟩ (by decide)
  exact ⟨h1.1 0 (by decide), h1.2.1, h1.2.2, h2⟩

/-- Claim C5: every exception raised inside a steady-state cycle is caught
at the cycle boundary: each cycle — failing or not — ends with the same
fixed sleep SCORING_INTERVAL (no backoff); a failing cycle leaves the
store untouched, attempts one close-and-reopen whose outcome becomes the
connection state, and the loop resumes with the next cycle; and the
number of cycles the loop runs is completely independent of which cycles
raise and whether the reconnections succeed — no exception pattern ever
terminates the loop (no retry limit, no escape, no process exit). -/
theorem scoring_loop_survives_exceptions (m : Model)
    (running raises reconnectOk : Nat → Bool) :
    (∀ fuel c st stf ds,
      engineLoop m running raises reconnectOk fuel c st = some (stf, ds) →
        ∀ d ∈ ds, d = SCORING_INTERVAL) ∧
    (∀ fuel c st, running c = true → raises c = true →
      engineLoop m running raises reconnectOk (fuel + 1) c st =
        (engineLoop m running raises reconnectOk fuel (c + 1)
            { st with connOpen := reconnectOk c }).map
          fun p => (p.1, SCORING_INTERVAL :: p.2)) ∧
    (∀ raises2 reconnectOk2 : Nat → Bool, ∀ fuel c st st2,
      (engineLoop m running raises reconnectOk fuel c st).map (fun p => p.2.length) =
        (engineLoop m running raises2 reconnectOk2 fuel c st2).map
          fun p => p.2.length) := by
  refine ⟨engineLoop_sleeps m running raises reconnectOk, ?_, ?_⟩
  · intro fuel c st hr hra
    rw [engineLoop_succ_running m running raises reconnectOk fuel c st hr]
    have hc : engineCycle m (raises c) (reconnectOk c) st =
        ({ st with connOpen := reconnectOk c }, SCORING_INTERVAL) := by
      rw [hra]
      rfl
    rw [hc]
    cases hin : engineLoop m running raises reconnectOk fuel (c + 1)
        { st with connOpen := reconnectOk c } with
    | none => rfl
    | some p => obtain ⟨stf, ds⟩ := p; rfl
  · intro raises2 reconnectOk2 fuel c st st2
    exact engineLoop_cycles_indep m m running raises raises2 reconnectOk
      reconnectOk2 fuel c st st2

/-- Witness for C5: cycle 0 raises with a failing reconnection under a
schedule that shuts down at cycle 1; the loop's run from cycle 0 equals
the run from cycle 1 with connOpen false, prefixed by one standard sleep,
and both sides are concrete values. -/
theorem scoring_loop_survives_exceptions_witness :
    engineLoop modelW (fun c => decide (c < 1)) (fun _ => true) (fun _ => false)
        2 0 ⟨true, storeW⟩ =
      (engineLoop modelW (fun c => decide (c < 1)) (fun _ => true)
            (fun _ => false) 1 1 ⟨false, storeW⟩).map
        fun p => (p.1, SCORING_INTERVAL :: p.2) :=
  (scoring_loop_survives_exceptions modelW (fun c => decide (c < 1))
    (fun _ => true) (fun _ => false)).2.1 1 0 ⟨true, storeW⟩ rfl rfl

/-- Claim C10: the record INSERTed for a source row carries every column
of that row except exactly is_anomaly and anomaly_score, which are popped
and never inserted; the timestamp column carries the wall-clock insertion
time instead of the row's value; every other column carries the row's
value through the NaN-to-null and numpy-to-native conversion — in
particular the CSV's pre-existing anomaly_detection_score column is kept. -/
theorem insert_row_frame (now : Nat) (row : List (String × PyVal)) :
    ((insert_row now row).map Prod.fst =
      (row.map Prod.fst).filter fun c => c ≠ "is_anomaly" ∧ c ≠ "anomaly_score") ∧
    (∀ c v, (c, v) ∈ row → c ≠ "timestamp" → c ≠ "is_anomaly" →
      c ≠ "anomaly_score" → (c, convertVal v) ∈ insert_row now row) ∧
    (∀ v, ("timestamp", v) ∈ row →
      ("timestamp", PyVal.timeVal now) ∈ insert_row now row) ∧
    (∀ v, ("is_anomaly", v) ∉ insert_row now row) ∧
    (∀ v, ("anomaly_score", v) ∉ insert_row now row) ∧
    (∀ v, ("anomaly_detection_score", v) ∈ row →
      ("anomaly_detection_score", convertVal v) ∈ insert_row now row) := by
  refine ⟨?_, ?_, ?_, ?_, ?_, ?_⟩
  · induction row with
    | nil => rfl
    | cons cv t ih =>
      obtain ⟨c, v⟩ := cv
      by_cases hp : c ≠ "is_anomaly" ∧ c ≠ "anomaly_score"
      · by_cases ht : c = "timestamp" <;>
          simp [insert_row, List.filter_cons, hp, ht] at ih ⊢ <;>
          exact ih
      · by_cases ht : c = "timestamp"
        · exact absurd (by rw [ht]; exact ⟨by decide, by decide⟩) hp
        · simp [insert_row, List.filter_cons, hp, ht] at ih ⊢
          exact ih
  · intro c v hmem hts hia has
    unfold insert_row
    apply List.mem_filter.2
    refine ⟨?_, ?_⟩
    · have h0 := List.mem_map_of_mem
        (fun cv : String × PyVal =>
          if cv.1 = "timestamp" then (cv.1, PyVal.timeVal now)
          else (cv.1, convertVal cv.2)) hmem
      simpa [hts] using h0
    · simp [hia, has]
  · intro v hmem
    unfold insert_row
    apply List.mem_filter.2
    refine ⟨?_, ?_⟩
    · have h0 := List.mem_map_of_mem
        (fun cv : String × PyVal =>
          if cv.1 = "timestamp" then (cv.1, PyVal.timeVal now)
          else (cv.1, convertVal cv.2)) hmem
      simpa using h0
    · simp
  · intro v hmem
    have := (List.mem_filter.1 hmem).2
    have h2 := of_decide_eq_true this
    exact h2.1 rfl
  · intro v hmem
    have := (List.mem_filter.1 hmem).2
    have h2 := of_decide_eq_true this
    exact h2.2 rfl
  · intro v hmem
    unfold insert_row
    apply List.mem_filter.2
    refine ⟨?_, ?_⟩
    · have h0 := List.mem_map_of_mem
        (fun cv : String × PyVal =>
          if cv.1 = "timestamp" then (cv.1, PyVal.timeVal now)
          else (cv.1, convertVal cv.2)) hmem
      simpa using h0
    · simp

/-- Witness for C10: a concrete row with a timestamp, a numpy float
reading, a NaN anomaly_detection_score and CSV-provided is_anomaly and
anomaly_score: the inserted record keeps strain (as a native float) and
anomaly_detection_score (as null), restamps the timestamp to time 99, and
drops exactly the two outcome columns. -/
theorem insert_row_frame_witness :
    ((insert_row 99 [("timestamp", PyVal.str "t"), ("strain", PyVal.npFloat 5),
        ("anomaly_detection_score", PyVal.nan), ("is_anomaly", PyVal.pynone),
        ("anomaly_score", PyVal.npFloat 1)]).map Prod.fst =
      ([("timestamp", PyVal.str "t"), ("strain", PyVal.npFloat 5),
        ("anomaly_detection_score", PyVal.nan), ("is_anomaly", PyVal.pynone),
        ("anomaly_score", PyVal.npFloat 1)].map Prod.fst).filter
        fun c => c ≠ "is_anomaly" ∧ c ≠ "anomaly_score") ∧
    ("strain", PyVal.pyFloat 5) ∈ insert_row 99
      [("timestamp", PyVal.str "t"), ("strain", PyVal.npFloat 5),
       ("anomaly_detection_score", PyVal.nan), ("is_anomaly", PyVal.pynone),
       ("anomaly_score", PyVal.npFloat 1)] ∧
    ("timestamp", PyVal.timeVal 99) ∈ insert_row 99
      [("timestamp", PyVal.str "t"), ("strain", PyVal.npFloat 5),
       ("anomaly_detection_score", PyVal.nan), ("is_anomaly", PyVal.pynone),
       ("anomaly_score", PyVal.npFloat 1)] ∧
    ("is_anomaly", PyVal.pynone) ∉ insert_row 99
      [("timestamp", PyVal.str "t"), ("strain", PyVal.npFloat 5),
       ("anomaly_detection_score", PyVal.nan), ("is_anomaly", PyVal.pynone),
       ("anomaly_score", PyVal.npFloat 1)] ∧
    ("anomaly_detection_score", PyVal.pynone) ∈ insert_row 99
      [("timestamp", PyVal.str "t"), ("strain", PyVal.npFloat 5),
       ("anomaly_detection_score", PyVal.nan), ("is_anomaly", PyVal.pynone),
       ("anomaly_score", PyVal.npFloat 1)] := by
  have h := insert_row_frame 99
    [("timestamp", PyVal.str "t"), ("strain", PyVal.npFloat 5),
     ("anomaly_detection_score", PyVal.nan), ("is_anomaly", PyVal.pynone),
     ("anomaly_score", PyVal.npFloat 1)]
  refine ⟨h.1, ?_, ?_, h.2.2.2.1 PyVal.pynone, ?_⟩
  · exact h.2.1 "strain" (PyVal.npFloat 5) (by decide) (by decide) (by decide)
      (by decide)
  · exact h.2.2.1 (PyVal.str "t") (by decide)
  · exact h.2.2.2.2.2 PyVal.nan (by decide)

end Bridge
